import Mathlib

/-!
Verification of the in-memory entity-store pattern of this repository.

The embedding follows the Go sources:
* `Task`, `TaskStore` and its methods `Create`, `Get`, `GetAll`, `Update`,
  `Delete`, `GetByStatus` and the HTTP-level `createTaskHandler`
  (REST task manager, `src/unnamed/part_001`);
* `User`, `UserService.CreateUser` and `Handler.CreateUserHandler`
  (integration-testing lesson, `src/lesson12/calculator/calc_test.go`).

Modelling decisions:
* A Go `map[int]T` is embedded as an association list `List (Nat × T)` with
  the usual map semantics: assignment replaces the value of an existing key
  in place and otherwise appends a fresh binding; `range` iterates the list
  in order (one admissible iteration order — the spec leaves ordering
  unspecified).
* `time.Now()` is nondeterministic input, passed as an explicit `now : Nat`
  argument to the operations that read the clock.
* Go methods mutate the receiver through a pointer; each embedded operation
  returns its result paired with the post-state, so that frame conditions
  ("never mutates") are expressible.
* The `sync.RWMutex` serializes mutating operations; a concurrent execution
  is therefore embedded as an arbitrary sequence of operations in
  serialization order.
* Go `int` identifiers are embedded as `Nat`: the counter starts at 1 and
  only ever increments, so signed-overflow behaviour is never reached in any
  execution the claims quantify over.
-/

namespace Lessons

/-- The `Task` record of the REST task manager. -/
structure Task where
  ID : Nat
  Title : String
  Description : String
  Completed : Bool
  CreatedAt : Nat
  DueDate : Nat
  Priority : String
deriving DecidableEq, Repr

/-- The Go zero value of `Task`, returned by lookups on a missing key. -/
def Task.zero : Task :=
  { ID := 0, Title := "", Description := "", Completed := false,
    CreatedAt := 0, DueDate := 0, Priority := "" }

/-- Go map assignment `m[k] = v`: replace in place if `k` is bound,
otherwise append a fresh binding. -/
def mapInsert {α : Type} (m : List (Nat × α)) (k : Nat) (v : α) :
    List (Nat × α) :=
  match m with
  | [] => [(k, v)]
  | (k1, v1) :: rest =>
    if k1 = k then (k, v) :: rest else (k1, v1) :: mapInsert rest k v

/-- Go map read `v, ok := m[k]`, as an `Option`. -/
def mapLookup {α : Type} (m : List (Nat × α)) (k : Nat) : Option α :=
  match m with
  | [] => none
  | (k1, v1) :: rest => if k1 = k then some v1 else mapLookup rest k

/-- Go `delete(m, k)`. -/
def mapDelete {α : Type} (m : List (Nat × α)) (k : Nat) : List (Nat × α) :=
  m.filter (fun p => p.1 != k)

/-- `TaskStore`: the identifier-keyed task map and the next-identifier
counter (the mutex is the serialization discipline, see the header). -/
structure TaskStore where
  tasks : List (Nat × Task)
  nextID : Nat
deriving DecidableEq, Repr

/-- `NewTaskStore`: empty map, counter starts at 1. -/
def NewTaskStore : TaskStore := { tasks := [], nextID := 1 }

/-- `func (ts *TaskStore) Create(task Task) Task`: assign `nextID` and the
current time, store, bump the counter, return the stored copy. -/
def TaskStore.Create (ts : TaskStore) (task : Task) (now : Nat) :
    Task × TaskStore :=
  let task := { task with ID := ts.nextID, CreatedAt := now }
  (task, { tasks := mapInsert ts.tasks task.ID task, nextID := ts.nextID + 1 })

/-- `func (ts *TaskStore) Get(id int) (Task, bool)`. -/
def TaskStore.Get (ts : TaskStore) (id : Nat) : (Task × Bool) × TaskStore :=
  match mapLookup ts.tasks id with
  | some task => ((task, true), ts)
  | none => ((Task.zero, false), ts)

/-- `func (ts *TaskStore) GetAll() []Task`: collect every stored task. -/
def TaskStore.GetAll (ts : TaskStore) : List Task × TaskStore :=
  (ts.tasks.map Prod.snd, ts)

/-- `func (ts *TaskStore) Update(id int, updated Task) (Task, bool)`:
if `id` is absent return the zero task and `false`; otherwise force
`updated.ID = id`, store it and return it with `true`. -/
def TaskStore.Update (ts : TaskStore) (id : Nat) (updated : Task) :
    (Task × Bool) × TaskStore :=
  match mapLookup ts.tasks id with
  | none => ((Task.zero, false), ts)
  | some _ =>
    let updated := { updated with ID := id }
    ((updated, true), { ts with tasks := mapInsert ts.tasks id updated })

/-- `func (ts *TaskStore) Delete(id int) bool`. -/
def TaskStore.Delete (ts : TaskStore) (id : Nat) : Bool × TaskStore :=
  match mapLookup ts.tasks id with
  | some _ => (true, { ts with tasks := mapDelete ts.tasks id })
  | none => (false, ts)

/-- `func (ts *TaskStore) GetByStatus(completed bool) []Task`:
the stored tasks whose `Completed` field equals the argument. -/
def TaskStore.GetByStatus (ts : TaskStore) (completed : Bool) :
    List Task × TaskStore :=
  ((ts.tasks.filter (fun p => p.2.Completed == completed)).map Prod.snd, ts)

/-- One store operation, for quantifying over interleavings. -/
inductive Op where
  | create (task : Task) (now : Nat)
  | get (id : Nat)
  | getAll
  | update (id : Nat) (task : Task)
  | delete (id : Nat)
  | getByStatus (completed : Bool)
deriving DecidableEq, Repr

/-- The state transition of one operation. -/
def applyOp (ts : TaskStore) : Op → TaskStore
  | .create task now => (ts.Create task now).2
  | .get id => (ts.Get id).2
  | .getAll => ts.GetAll.2
  | .update id task => (ts.Update id task).2
  | .delete id => (ts.Delete id).2
  | .getByStatus c => (ts.GetByStatus c).2

/-- Run a sequence of operations. -/
def runOps (ts : TaskStore) (ops : List Op) : TaskStore :=
  ops.foldl applyOp ts

/-- Is the operation a `Create`? -/
def Op.isCreate : Op → Bool
  | .create _ _ => true
  | .get _ => false
  | .getAll => false
  | .update _ _ => false
  | .delete _ => false
  | .getByStatus _ => false

/-- The number of `Create` calls in a sequence. -/
def countCreates (ops : List Op) : Nat := ops.countP Op.isCreate

/-- The identifiers assigned by the `Create` calls of a run, in order. -/
def assignedIds (ts : TaskStore) : List Op → List Nat
  | [] => []
  | .create task now :: rest =>
    ts.nextID :: assignedIds (ts.Create task now).2 rest
  | .get id :: rest => assignedIds (applyOp ts (.get id)) rest
  | .getAll :: rest => assignedIds (applyOp ts .getAll) rest
  | .update id task :: rest => assignedIds (applyOp ts (.update id task)) rest
  | .delete id :: rest => assignedIds (applyOp ts (.delete id)) rest
  | .getByStatus c :: rest => assignedIds (applyOp ts (.getByStatus c)) rest

/-! ### Lemmas about the embedded map operations -/

theorem mapLookup_mapInsert_self {α : Type} (m : List (Nat × α)) (k : Nat)
    (v : α) : mapLookup (mapInsert m k v) k = some v := by
  induction m with
  | nil => simp [mapInsert, mapLookup]
  | cons p rest ih =>
    obtain ⟨k1, v1⟩ := p
    by_cases h : k1 = k <;> simp [mapInsert, mapLookup, h, ih]

theorem mapLookup_mapInsert_ne {α : Type} (m : List (Nat × α)) (k k2 : Nat)
    (v : α) (h : k2 ≠ k) :
    mapLookup (mapInsert m k v) k2 = mapLookup m k2 := by
  induction m with
  | nil => simp [mapInsert, mapLookup, Ne.symm h]
  | cons p rest ih =>
    obtain ⟨k1, v1⟩ := p
    by_cases hk : k1 = k
    · subst hk
      simp [mapInsert, mapLookup, Ne.symm h]
    · by_cases hk2 : k1 = k2 <;>
        simp [mapInsert, mapLookup, hk, hk2, h, Ne.symm h, ih]

theorem mapLookup_mapDelete_self {α : Type} (m : List (Nat × α)) (k : Nat) :
    mapLookup (mapDelete m k) k = none := by
  induction m with
  | nil => simp [mapDelete, mapLookup]
  | cons p rest ih =>
    obtain ⟨k1, v1⟩ := p
    by_cases h : k1 = k
    · simpa [mapDelete, List.filter_cons, h] using ih
    · simpa [mapDelete, List.filter_cons, h, mapLookup] using ih

theorem mapLookup_mapDelete_ne {α : Type} (m : List (Nat × α)) (k k2 : Nat)
    (h : k2 ≠ k) : mapLookup (mapDelete m k) k2 = mapLookup m k2 := by
  induction m with
  | nil => simp [mapDelete, mapLookup]
  | cons p rest ih =>
    obtain ⟨k1, v1⟩ := p
    by_cases hk : k1 = k
    · subst hk
      simpa [mapDelete, List.filter_cons, mapLookup, Ne.symm h] using ih
    · by_cases hk2 : k1 = k2
      · subst hk2
        simp [mapDelete, List.filter_cons, hk, mapLookup]
      · simpa [mapDelete, List.filter_cons, hk, hk2, mapLookup] using ih

theorem mem_of_mapLookup_eq_some {α : Type} (m : List (Nat × α)) (k : Nat)
    (v : α) (h : mapLookup m k = some v) : (k, v) ∈ m := by
  induction m with
  | nil => simp [mapLookup] at h
  | cons p rest ih =>
    obtain ⟨k1, v1⟩ := p
    by_cases hk : k1 = k
    · subst hk
      simp [mapLookup] at h
      simp [h]
    · simp [mapLookup, hk] at h
      simp [ih h]

theorem mem_mapInsert_elim {α : Type} (m : List (Nat × α)) (k : Nat) (v : α)
    (p : Nat × α) (h : p ∈ mapInsert m k v) : p = (k, v) ∨ p ∈ m := by
  induction m with
  | nil => simpa [mapInsert] using h
  | cons q rest ih =>
    obtain ⟨k1, v1⟩ := q
    by_cases hk : k1 = k
    · subst hk
      simp [mapInsert] at h
      rcases h with h | h
      · exact Or.inl (by simp [h])
      · exact Or.inr (by simp [h])
    · simp [mapInsert, hk] at h
      rcases h with h | h
      · exact Or.inr (by simp [h])
      · rcases ih h with h2 | h2
        · exact Or.inl h2
        · exact Or.inr (by simp [h2])

theorem mem_mapDelete_elim {α : Type} (m : List (Nat × α)) (k : Nat)
    (p : Nat × α) (h : p ∈ mapDelete m k) : p ∈ m ∧ p.1 ≠ k := by
  have h2 := List.of_mem_filter h
  refine ⟨List.mem_of_mem_filter h, ?_⟩
  simpa using h2

theorem map_fst_mapInsert {α : Type} (m : List (Nat × α)) (k : Nat) (v : α) :
    (mapInsert m k v).map Prod.fst =
      if k ∈ m.map Prod.fst then m.map Prod.fst
      else m.map Prod.fst ++ [k] := by
  induction m with
  | nil => simp [mapInsert]
  | cons p rest ih =>
    obtain ⟨k1, v1⟩ := p
    by_cases hk : k1 = k
    · subst hk
      simp [mapInsert]
    · by_cases hmem : k ∈ rest.map Prod.fst <;>
        simp [mapInsert, hk, Ne.symm hk, hmem, ih]

theorem map_fst_mapDelete {α : Type} (m : List (Nat × α)) (k : Nat) :
    (mapDelete m k).map Prod.fst =
      (m.map Prod.fst).filter (fun x => x != k) := by
  induction m with
  | nil => simp [mapDelete]
  | cons p rest ih =>
    obtain ⟨k1, v1⟩ := p
    by_cases hk : k1 = k <;>
      simpa [mapDelete, List.filter_cons, hk] using ih

theorem mapLookup_eq_none_iff {α : Type} (m : List (Nat × α)) (k : Nat) :
    mapLookup m k = none ↔ ∀ p ∈ m, p.1 ≠ k := by
  induction m with
  | nil => simp [mapLookup]
  | cons p rest ih =>
    obtain ⟨k1, v1⟩ := p
    by_cases hk : k1 = k <;> simp [mapLookup, hk, ih]

theorem mapInsert_fresh {α : Type} (m : List (Nat × α)) (k : Nat) (v : α)
    (h : ∀ p ∈ m, p.1 ≠ k) : mapInsert m k v = m ++ [(k, v)] := by
  induction m with
  | nil => simp [mapInsert]
  | cons p rest ih =>
    obtain ⟨k1, v1⟩ := p
    have hk : k1 ≠ k := h (k1, v1) (by simp)
    simp [mapInsert, hk]
    exact ih fun p hp => h p (by simp [hp])

/-! ### Read operations do not change the state -/

theorem Get_snd (ts : TaskStore) (id : Nat) : (ts.Get id).2 = ts := by
  unfold TaskStore.Get
  cases mapLookup ts.tasks id <;> rfl

theorem GetAll_snd (ts : TaskStore) : ts.GetAll.2 = ts := rfl

theorem GetByStatus_snd (ts : TaskStore) (c : Bool) :
    (ts.GetByStatus c).2 = ts := rfl

/-! ### The store invariant and its preservation -/

/-- Invariant of `TaskStore`: every stored entry's `ID` field equals its map
key, every key is strictly below the counter, and the keys are
duplicate-free. -/
def TaskStore.Inv (ts : TaskStore) : Prop :=
  (∀ p ∈ ts.tasks, p.2.ID = p.1 ∧ p.1 < ts.nextID) ∧
  (ts.tasks.map Prod.fst).Nodup

theorem Inv_NewTaskStore : NewTaskStore.Inv := by
  constructor <;> simp [NewTaskStore]

theorem nextID_not_mem (ts : TaskStore) (h : ts.Inv) :
    ts.nextID ∉ ts.tasks.map Prod.fst := by
  intro hmem
  obtain ⟨p, hp, he⟩ := List.mem_map.mp hmem
  obtain ⟨_, hlt⟩ := h.1 p hp
  omega

theorem Inv_Create (ts : TaskStore) (h : ts.Inv) (task : Task) (now : Nat) :
    ((ts.Create task now).2).Inv := by
  obtain ⟨h1, h2⟩ := h
  constructor
  · intro p hp
    rcases mem_mapInsert_elim _ _ _ _ hp with hp | hp
    · subst hp
      exact ⟨rfl, Nat.lt_succ_self _⟩
    · obtain ⟨e1, e2⟩ := h1 p hp
      exact ⟨e1, Nat.lt_succ_of_lt e2⟩
  · have hfresh := nextID_not_mem ts ⟨h1, h2⟩
    show ((mapInsert ts.tasks ts.nextID _).map Prod.fst).Nodup
    rw [map_fst_mapInsert]
    simp only [hfresh, if_false]
    simp [List.nodup_append, h2]
    intro a ha
    exact hfresh (List.mem_map.mpr ⟨(ts.nextID, a), ha, rfl⟩)

theorem Inv_Update (ts : TaskStore) (h : ts.Inv) (id : Nat) (v : Task) :
    ((ts.Update id v).2).Inv := by
  obtain ⟨h1, h2⟩ := h
  unfold TaskStore.Update
  cases hl : mapLookup ts.tasks id with
  | none => exact ⟨h1, h2⟩
  | some w =>
    have hmem := mem_of_mapLookup_eq_some _ _ _ hl
    constructor
    · intro p hp
      rcases mem_mapInsert_elim _ _ _ _ hp with hp | hp
      · subst hp
        exact ⟨rfl, (h1 _ hmem).2⟩
      · exact h1 p hp
    · show ((mapInsert ts.tasks id _).map Prod.fst).Nodup
      rw [map_fst_mapInsert]
      have hk : id ∈ ts.tasks.map Prod.fst := List.mem_map.mpr ⟨(id, w), hmem, rfl⟩
      simp only [hk, if_true]
      exact h2

theorem Inv_Delete (ts : TaskStore) (h : ts.Inv) (id : Nat) :
    ((ts.Delete id).2).Inv := by
  obtain ⟨h1, h2⟩ := h
  unfold TaskStore.Delete
  cases hl : mapLookup ts.tasks id with
  | none => exact ⟨h1, h2⟩
  | some w =>
    constructor
    · intro p hp
      exact h1 p (mem_mapDelete_elim _ _ _ hp).1
    · show ((mapDelete ts.tasks id).map Prod.fst).Nodup
      rw [map_fst_mapDelete]
      exact h2.filter _

theorem Inv_applyOp (ts : TaskStore) (h : ts.Inv) (op : Op) :
    (applyOp ts op).Inv := by
  cases op with
  | create task now => exact Inv_Create ts h task now
  | get id => simpa [applyOp, Get_snd] using h
  | getAll => simpa [applyOp, GetAll_snd] using h
  | update id task => exact Inv_Update ts h id task
  | delete id => exact Inv_Delete ts h id
  | getByStatus c => simpa [applyOp, GetByStatus_snd] using h

theorem Inv_runOps (ts : TaskStore) (h : ts.Inv) (ops : List Op) :
    (runOps ts ops).Inv := by
  induction ops generalizing ts with
  | nil => exact h
  | cons op rest ih => exact ih (applyOp ts op) (Inv_applyOp ts h op)

theorem Inv_reachable (ops : List Op) : (runOps NewTaskStore ops).Inv :=
  Inv_runOps NewTaskStore Inv_NewTaskStore ops

/-! ### The counter: only `Create` moves it, and only upwards -/

theorem nextID_Create (ts : TaskStore) (task : Task) (now : Nat) :
    ((ts.Create task now).2).nextID = ts.nextID + 1 := rfl

theorem nextID_applyOp_nonCreate (ts : TaskStore) (op : Op)
    (h : op.isCreate = false) : (applyOp ts op).nextID = ts.nextID := by
  cases op with
  | create task now => simp [Op.isCreate] at h
  | get id => rw [applyOp, Get_snd]
  | getAll => rw [applyOp, GetAll_snd]
  | update id task =>
    show ((ts.Update id task).2).nextID = ts.nextID
    unfold TaskStore.Update
    cases mapLookup ts.tasks id <;> rfl
  | delete id =>
    show ((ts.Delete id).2).nextID = ts.nextID
    unfold TaskStore.Delete
    cases mapLookup ts.tasks id <;> rfl
  | getByStatus c => rw [applyOp, GetByStatus_snd]

theorem nextID_applyOp_mono (ts : TaskStore) (op : Op) :
    ts.nextID ≤ (applyOp ts op).nextID := by
  cases hc : op.isCreate with
  | true =>
    cases op with
    | create task now => exact Nat.le_succ _
    | get id => simp [Op.isCreate] at hc
    | getAll => simp [Op.isCreate] at hc
    | update id task => simp [Op.isCreate] at hc
    | delete id => simp [Op.isCreate] at hc
    | getByStatus c => simp [Op.isCreate] at hc
  | false => rw [nextID_applyOp_nonCreate ts op hc]

theorem nextID_runOps_mono (ts : TaskStore) (ops : List Op) :
    ts.nextID ≤ (runOps ts ops).nextID := by
  induction ops generalizing ts with
  | nil => exact Nat.le_refl _
  | cons op rest ih =>
    exact Nat.le_trans (nextID_applyOp_mono ts op) (ih (applyOp ts op))

/-! ### The identifiers a run assigns -/

theorem assignedIds_eq (ops : List Op) (ts : TaskStore) :
    assignedIds ts ops = List.range' ts.nextID (countCreates ops) := by
  induction ops generalizing ts with
  | nil => simp [assignedIds, countCreates]
  | cons op rest ih =>
    cases op with
    | create task now =>
      have : countCreates (Op.create task now :: rest) =
          countCreates rest + 1 := by
        simp [countCreates, List.countP_cons, Op.isCreate]
      rw [this, assignedIds, List.range'_succ, ih, nextID_Create]
    | get id =>
      have : countCreates (Op.get id :: rest) = countCreates rest := by
        simp [countCreates, List.countP_cons, Op.isCreate]
      rw [this, assignedIds, ih, nextID_applyOp_nonCreate ts (Op.get id) rfl]
    | getAll =>
      have : countCreates (Op.getAll :: rest) = countCreates rest := by
        simp [countCreates, List.countP_cons, Op.isCreate]
      rw [this, assignedIds, ih, nextID_applyOp_nonCreate ts Op.getAll rfl]
    | update id task =>
      have h1 : countCreates (Op.update id task :: rest) = countCreates rest := by
        simp [countCreates, List.countP_cons, Op.isCreate]
      rw [h1, assignedIds, ih,
        nextID_applyOp_nonCreate ts (Op.update id task) rfl]
    | delete id =>
      have h1 : countCreates (Op.delete id :: rest) = countCreates rest := by
        simp [countCreates, List.countP_cons, Op.isCreate]
      rw [h1, assignedIds, ih, nextID_applyOp_nonCreate ts (Op.delete id) rfl]
    | getByStatus c =>
      have : countCreates (Op.getByStatus c :: rest) = countCreates rest := by
        simp [countCreates, List.countP_cons, Op.isCreate]
      rw [this, assignedIds, ih,
        nextID_applyOp_nonCreate ts (Op.getByStatus c) rfl]

theorem Create_stores (ts : TaskStore) (task : Task) (now : Nat) :
    mapLookup (ts.Create task now).2.tasks (ts.Create task now).1.ID =
      some (ts.Create task now).1 := by
  simp [TaskStore.Create, mapLookup_mapInsert_self]

/-! ### Claim theorems -/

/-- C1: from a fresh `TaskStore`, along any sequence of operations, every
`Create` call succeeds and returns a task that is stored under its assigned
identifier, and the identifiers assigned by the successive `Create` calls
are exactly `1, 2, 3, …`: strictly increasing, pairwise distinct, and the
first one is 1. -/
theorem spec_c1 (ops : List Op) :
    (∀ ts task now, mapLookup (TaskStore.Create ts task now).2.tasks
        (TaskStore.Create ts task now).1.ID =
        some (TaskStore.Create ts task now).1) ∧
    assignedIds NewTaskStore ops = List.range' 1 (countCreates ops) ∧
    (assignedIds NewTaskStore ops).Pairwise (· < ·) ∧
    (assignedIds NewTaskStore ops).Nodup ∧
    (0 < countCreates ops →
      (assignedIds NewTaskStore ops).head? = some 1) := by
  have he : assignedIds NewTaskStore ops =
      List.range' 1 (countCreates ops) := assignedIds_eq ops NewTaskStore
  refine ⟨Create_stores, he, ?_, ?_, ?_⟩
  · rw [he]
    exact List.pairwise_lt_range' 1 (countCreates ops)
  · rw [he]
    exact List.nodup_range' 1 (countCreates ops)
  · intro hpos
    rw [he]
    cases hn : countCreates ops with
    | zero => omega
    | succ n => rw [List.range'_succ]; rfl

/-- C1 witness: a concrete run with two creates and a delete in between;
the first assigned identifier is 1. -/
theorem spec_c1_witness :
    (assignedIds NewTaskStore
        [Op.create Task.zero 3, Op.delete 1, Op.create Task.zero 4]).head? =
      some 1 :=
  (spec_c1 [Op.create Task.zero 3, Op.delete 1,
    Op.create Task.zero 4]).2.2.2.2 (by decide)

/-- The concrete input task of the C2 counterexample: its caller-supplied
`CreatedAt` field is 5. -/
def c2Task : Task :=
  { ID := 0, Title := "a", Description := "", Completed := false,
    CreatedAt := 5, DueDate := 0, Priority := "low" }

/-- C2 counterexample: the claim says the entity retrieved after `Create`
equals the input in every field other than the identifier, but `Create` also
overwrites `CreatedAt` with the current time: creating a task whose
`CreatedAt` field is 5 at time 7 and reading it back yields `CreatedAt = 7`,
not 5. -/
theorem spec_c2_counterexample :
    (((NewTaskStore.Create c2Task 7).2.Get
        (NewTaskStore.Create c2Task 7).1.ID).1.2 = true) ∧
    ¬(((NewTaskStore.Create c2Task 7).2.Get
        (NewTaskStore.Create c2Task 7).1.ID).1.1.CreatedAt =
      c2Task.CreatedAt) := by
  decide

/-- C2 (amended): after `Create(t)` at time `now`, `Get` on the assigned
identifier reports found and returns an entity equal to `t` in every field
except the identifier (set to the assigned one) and the creation timestamp
(set to `now`). -/
theorem spec_c2_amended (ts : TaskStore) (t : Task) (now : Nat) :
    (((ts.Create t now).2.Get (ts.Create t now).1.ID).1.2 = true) ∧
    ((ts.Create t now).2.Get (ts.Create t now).1.ID).1.1 =
      { t with ID := ts.nextID, CreatedAt := now } := by
  have h := Create_stores ts t now
  unfold TaskStore.Get
  rw [h]
  exact ⟨rfl, rfl⟩

/-- C3: `Update` on a present identifier reports found, stores the new value
with its identifier field forced to the key (whatever identifier the new
value carried), leaves the counter and all other keys untouched; `Update` on
an absent identifier reports not-found and leaves the store exactly
unchanged. -/
theorem spec_c3 (ts : TaskStore) (id : Nat) (v : Task) :
    (∀ w, mapLookup ts.tasks id = some w →
      (ts.Update id v).1.2 = true ∧
      (ts.Update id v).1.1 = { v with ID := id } ∧
      mapLookup (ts.Update id v).2.tasks id = some { v with ID := id } ∧
      (ts.Update id v).2.nextID = ts.nextID ∧
      (∀ k, k ≠ id →
        mapLookup (ts.Update id v).2.tasks k = mapLookup ts.tasks k)) ∧
    (mapLookup ts.tasks id = none →
      (ts.Update id v).1.2 = false ∧ (ts.Update id v).2 = ts) := by
  constructor
  · intro w hw
    unfold TaskStore.Update
    rw [hw]
    refine ⟨rfl, rfl, mapLookup_mapInsert_self _ _ _, rfl, ?_⟩
    intro k hk
    exact mapLookup_mapInsert_ne ts.tasks id k _ hk
  · intro hn
    unfold TaskStore.Update
    rw [hn]
    exact ⟨rfl, rfl⟩

/-- C3 witness: in a store holding exactly task 1, updating identifier 1
reports found and updating identifier 2 reports not-found. -/
theorem spec_c3_witness :
    (((NewTaskStore.Create Task.zero 0).2.Update 1
        { Task.zero with Title := "t" }).1.2 = true) ∧
    (((NewTaskStore.Create Task.zero 0).2.Update 2
        { Task.zero with Title := "t" }).1.2 = false) :=
  ⟨((spec_c3 (NewTaskStore.Create Task.zero 0).2 1
      { Task.zero with Title := "t" }).1
      { Task.zero with ID := 1 } (by decide)).1,
   ((spec_c3 (NewTaskStore.Create Task.zero 0).2 2
      { Task.zero with Title := "t" }).2 (by decide)).1⟩

/-- The identifier `Create` returns is the counter value. -/
theorem Create_fst_ID (ts : TaskStore) (task : Task) (now : Nat) :
    (ts.Create task now).1.ID = ts.nextID := rfl

/-- `Delete` reports found exactly when the key is bound. -/
theorem Delete_fst_iff (ts : TaskStore) (id : Nat) :
    (ts.Delete id).1 = true ↔ (mapLookup ts.tasks id).isSome = true := by
  unfold TaskStore.Delete
  cases mapLookup ts.tasks id <;> simp

/-- `Delete` leaves the counter unchanged. -/
theorem Delete_snd_nextID (ts : TaskStore) (id : Nat) :
    ((ts.Delete id).2).nextID = ts.nextID := by
  unfold TaskStore.Delete
  cases mapLookup ts.tasks id <;> rfl

/-- C5: in every state reachable from a fresh store, each stored entity's
identifier field equals the key it is stored under, the keys are
duplicate-free (so identifiers are unique within the store), and no single
further operation changes the identifier of an entity that remains stored
under its key. -/
theorem spec_c5 (ops : List Op) :
    (∀ p ∈ (runOps NewTaskStore ops).tasks, p.2.ID = p.1) ∧
    ((runOps NewTaskStore ops).tasks.map Prod.fst).Nodup ∧
    (∀ op k t t2,
      mapLookup (runOps NewTaskStore ops).tasks k = some t →
      mapLookup (applyOp (runOps NewTaskStore ops) op).tasks k = some t2 →
      t2.ID = t.ID) := by
  have hInv := Inv_reachable ops
  refine ⟨fun p hp => (hInv.1 p hp).1, hInv.2, ?_⟩
  intro op k t t2 h1 h2
  have e1 : t.ID = k := (hInv.1 _ (mem_of_mapLookup_eq_some _ _ _ h1)).1
  have hInv2 := Inv_applyOp _ hInv op
  have e2 : t2.ID = k := (hInv2.1 _ (mem_of_mapLookup_eq_some _ _ _ h2)).1
  rw [e1, e2]

/-- C5 witness: after one create, updating key 1 with a task carrying
identifier 9 leaves the identifier of the entity stored under key 1
unchanged. -/
theorem spec_c5_witness :
    ((applyOp (runOps NewTaskStore [Op.create Task.zero 0])
        (Op.update 1 { Task.zero with ID := 9 })).tasks.map Prod.fst).Nodup ∧
    (∀ t t2,
      mapLookup (runOps NewTaskStore [Op.create Task.zero 0]).tasks 1 =
        some t →
      mapLookup (applyOp (runOps NewTaskStore [Op.create Task.zero 0])
          (Op.update 1 { Task.zero with ID := 9 })).tasks 1 = some t2 →
      t2.ID = t.ID) :=
  ⟨by decide,
   fun t t2 h1 h2 =>
    (spec_c5 [Op.create Task.zero 0]).2.2
      (Op.update 1 { Task.zero with ID := 9 }) 1 t t2 h1 h2⟩

/-- C6: `Delete(id)` reports found exactly when `id` is bound; afterwards
`id` is absent and an immediately following `Get(id)` reports not-found;
deleting an absent identifier reports not-found and leaves the store
unchanged. -/
theorem spec_c6 (ts : TaskStore) (id : Nat) :
    ((ts.Delete id).1 = true ↔ (mapLookup ts.tasks id).isSome = true) ∧
    mapLookup ((ts.Delete id).2).tasks id = none ∧
    (((ts.Delete id).2.Get id).1.2 = false) ∧
    (mapLookup ts.tasks id = none →
      (ts.Delete id).1 = false ∧ (ts.Delete id).2 = ts) := by
  have habsent : mapLookup ((ts.Delete id).2).tasks id = none := by
    unfold TaskStore.Delete
    cases hl : mapLookup ts.tasks id with
    | none => exact hl
    | some w => exact mapLookup_mapDelete_self ts.tasks id
  refine ⟨Delete_fst_iff ts id, habsent, ?_, ?_⟩
  · unfold TaskStore.Get
    rw [habsent]
  · intro hn
    unfold TaskStore.Delete
    rw [hn]
    exact ⟨rfl, rfl⟩

/-- C6 witness: in a store holding exactly task 1, deleting 1 reports found
and a second delete of 1 reports not-found and changes nothing. -/
theorem spec_c6_witness :
    (((NewTaskStore.Create Task.zero 0).2.Delete 1).1 = true) ∧
    ((((NewTaskStore.Create Task.zero 0).2.Delete 1).2.Delete 1).1 = false) :=
  ⟨(spec_c6 (NewTaskStore.Create Task.zero 0).2 1).1.mpr (by decide),
   ((spec_c6 ((NewTaskStore.Create Task.zero 0).2.Delete 1).2 1).2.2.2
      (by decide)).1⟩

/-- C9: the three read operations return the store unchanged (same map and
same counter); `GetAll` returns one element per stored entry — every stored
entity exactly once; `GetByStatus c` returns exactly the stored entities
whose completion status equals `c`. -/
theorem spec_c9 (ts : TaskStore) (id : Nat) (c : Bool) :
    (ts.Get id).2 = ts ∧ ts.GetAll.2 = ts ∧ (ts.GetByStatus c).2 = ts ∧
    ts.GetAll.1 = ts.tasks.map Prod.snd ∧
    (ts.GetByStatus c).1 = ts.GetAll.1.filter (fun t => t.Completed == c) ∧
    (∀ t : Task, t ∈ (ts.GetByStatus c).1 ↔
      (∃ k, (k, t) ∈ ts.tasks) ∧ t.Completed = c) := by
  have hfilter : (ts.GetByStatus c).1 =
      (ts.tasks.map Prod.snd).filter (fun t => t.Completed == c) := by
    show (ts.tasks.filter (fun p => p.2.Completed == c)).map Prod.snd = _
    rw [List.filter_map]
    rfl
  refine ⟨Get_snd ts id, rfl, rfl, rfl, hfilter, ?_⟩
  intro t
  rw [hfilter, List.mem_filter]
  simp only [List.mem_map, beq_iff_eq]
  constructor
  · rintro ⟨⟨p, hp, he⟩, hc⟩
    refine ⟨⟨p.1, ?_⟩, hc⟩
    rw [← he]
    exact hp
  · rintro ⟨⟨k, hk⟩, hc⟩
    exact ⟨⟨(k, t), hk, rfl⟩, hc⟩

/-- C9 witness: in a store holding exactly task 1 (not completed), the task
is in the `GetByStatus false` result, by the characterization. -/
theorem spec_c9_witness :
    { Task.zero with ID := 1 } ∈
      ((NewTaskStore.Create Task.zero 0).2.GetByStatus false).1 :=
  ((spec_c9 (NewTaskStore.Create Task.zero 0).2 1 false).2.2.2.2.2
      { Task.zero with ID := 1 }).mpr ⟨⟨1, by decide⟩, by decide⟩

/-- C10: identifiers are never reused — from a fresh store, the counter
never decreases under any operation, `Delete` and `Update` leave it
unchanged, it strictly bounds every identifier present, and a `Create`
performed any number of operations after a successful `Delete(id)` never
assigns `id` again. -/
theorem spec_c10 (ops : List Op) :
    (∀ op, (runOps NewTaskStore ops).nextID ≤
      (applyOp (runOps NewTaskStore ops) op).nextID) ∧
    (∀ id v,
      (applyOp (runOps NewTaskStore ops) (Op.delete id)).nextID =
        (runOps NewTaskStore ops).nextID ∧
      (applyOp (runOps NewTaskStore ops) (Op.update id v)).nextID =
        (runOps NewTaskStore ops).nextID) ∧
    (∀ p ∈ (runOps NewTaskStore ops).tasks,
      p.1 < (runOps NewTaskStore ops).nextID) ∧
    (∀ id, ((runOps NewTaskStore ops).Delete id).1 = true →
      ∀ more task now,
        ((runOps (((runOps NewTaskStore ops).Delete id).2) more).Create task
            now).1.ID ≠ id) := by
  have hInv := Inv_reachable ops
  refine ⟨fun op => nextID_applyOp_mono _ op,
    fun id v => ⟨nextID_applyOp_nonCreate _ (Op.delete id) rfl,
      nextID_applyOp_nonCreate _ (Op.update id v) rfl⟩,
    fun p hp => (hInv.1 p hp).2, ?_⟩
  intro id hdel more task now
  have hsome := (Delete_fst_iff _ id).mp hdel
  obtain ⟨w, hw⟩ := Option.isSome_iff_exists.mp hsome
  have hlt : id < (runOps NewTaskStore ops).nextID :=
    (hInv.1 _ (mem_of_mapLookup_eq_some _ _ _ hw)).2
  have h1 : ((((runOps NewTaskStore ops).Delete id)).2).nextID =
      (runOps NewTaskStore ops).nextID := Delete_snd_nextID _ id
  have h2 := nextID_runOps_mono (((runOps NewTaskStore ops).Delete id).2) more
  rw [Create_fst_ID]
  omega

/-- C10 witness: create task 1, delete it, create again — the new
identifier is not 1. -/
theorem spec_c10_witness :
    ((runOps (((runOps NewTaskStore [Op.create Task.zero 0]).Delete 1).2)
        []).Create Task.zero 5).1.ID ≠ 1 :=
  (spec_c10 [Op.create Task.zero 0]).2.2.2 1 (by decide) [] Task.zero 5

/-! ### Serialized concurrent creates (C8) -/

/-- A batch of `Create` calls in the serialization order imposed by the
store's exclusive lock: each request is a task value and the clock reading
of its call. -/
def runCreates (ts : TaskStore) : List (Task × Nat) → TaskStore
  | [] => ts
  | (t, now) :: rest => runCreates (ts.Create t now).2 rest

/-- The entries such a batch appends, starting at counter value `m`. -/
def buildEntries (m : Nat) : List (Task × Nat) → List (Nat × Task)
  | [] => []
  | (t, now) :: rest =>
    (m, { t with ID := m, CreatedAt := now }) :: buildEntries (m + 1) rest

theorem buildEntries_length (reqs : List (Task × Nat)) (m : Nat) :
    (buildEntries m reqs).length = reqs.length := by
  induction reqs generalizing m with
  | nil => rfl
  | cons r rest ih =>
    obtain ⟨t, now⟩ := r
    simp [buildEntries, ih]

theorem buildEntries_keys (reqs : List (Task × Nat)) (m : Nat) :
    (buildEntries m reqs).map Prod.fst = List.range' m reqs.length := by
  induction reqs generalizing m with
  | nil => rfl
  | cons r rest ih =>
    obtain ⟨t, now⟩ := r
    simp [buildEntries, List.range'_succ, ih]

theorem runCreates_spec (reqs : List (Task × Nat)) (ts : TaskStore)
    (h : ∀ p ∈ ts.tasks, p.1 < ts.nextID) :
    (runCreates ts reqs).tasks = ts.tasks ++ buildEntries ts.nextID reqs ∧
    (runCreates ts reqs).nextID = ts.nextID + reqs.length := by
  induction reqs generalizing ts with
  | nil => simp [runCreates, buildEntries]
  | cons r rest ih =>
    obtain ⟨t, now⟩ := r
    have hfresh : ∀ p ∈ ts.tasks, p.1 ≠ ts.nextID :=
      fun p hp => Nat.ne_of_lt (h p hp)
    have hc : ((ts.Create t now).2).tasks =
        ts.tasks ++ [(ts.nextID, { t with ID := ts.nextID, CreatedAt := now })] :=
      mapInsert_fresh ts.tasks ts.nextID _ hfresh
    have h2 : ∀ p ∈ ((ts.Create t now).2).tasks,
        p.1 < ((ts.Create t now).2).nextID := by
      rw [hc, nextID_Create]
      intro p hp
      rcases List.mem_append.mp hp with hp | hp
      · exact Nat.lt_succ_of_lt (h p hp)
      · simp at hp
        subst hp
        exact Nat.lt_succ_self _
    obtain ⟨ihl, ihr⟩ := ih (ts.Create t now).2 h2
    constructor
    · rw [runCreates, ihl, hc, nextID_Create]
      simp [buildEntries]
    · rw [runCreates, ihr, nextID_Create]
      simp only [List.length_cons]
      omega

/-- C8: a batch of `Create` calls serialized by the exclusive lock, run from
a fresh store, stores exactly one entry per call — the `k`-th call's task,
under identifier `k` — with pairwise distinct, strictly increasing
identifiers in serialization order, and loses or duplicates nothing. -/
theorem spec_c8 (reqs : List (Task × Nat)) :
    (runCreates NewTaskStore reqs).tasks = buildEntries 1 reqs ∧
    (runCreates NewTaskStore reqs).tasks.length = reqs.length ∧
    (runCreates NewTaskStore reqs).tasks.map Prod.fst =
      List.range' 1 reqs.length ∧
    ((runCreates NewTaskStore reqs).tasks.map Prod.fst).Pairwise (· < ·) ∧
    ((runCreates NewTaskStore reqs).tasks.map Prod.fst).Nodup := by
  have h := runCreates_spec reqs NewTaskStore (by simp [NewTaskStore])
  have hts : (runCreates NewTaskStore reqs).tasks = buildEntries 1 reqs := by
    rw [h.1]
    rfl
  have hkeys : (runCreates NewTaskStore reqs).tasks.map Prod.fst =
      List.range' 1 reqs.length := by
    rw [hts, buildEntries_keys]
  refine ⟨hts, ?_, hkeys, ?_, ?_⟩
  · rw [hts, buildEntries_length]
  · rw [hkeys]
    exact List.pairwise_lt_range' 1 reqs.length
  · rw [hkeys]
    exact List.nodup_range' 1 reqs.length

/-! ### The task-creation handler (C7) -/

/-- Outcome of an HTTP handler call, at the granularity the claims need. -/
inductive HandlerResponse where
  | badRequest (msg : String)
  | created (task : Task)
deriving DecidableEq, Repr

/-- `func (ts *TaskServer) createTaskHandler(w, r)`, modelled on the decoded
request body (the invalid-JSON branch, which also rejects with 400 and
touches nothing, is prior to the decoded task this function receives):
an empty title is rejected with "Title is required"; an empty priority
defaults to "medium"; the task is then stored via `Create`. -/
def createTaskHandler (store : TaskStore) (task : Task) (now : Nat) :
    HandlerResponse × TaskStore :=
  if task.Title = "" then (.badRequest "Title is required", store)
  else
    let task := if task.Priority = "" then { task with Priority := "medium" }
      else task
    let r := store.Create task now
    (.created r.1, r.2)

/-- C7: a create request with an empty title is rejected with a validation
error and the store is exactly unchanged; a request with a non-empty title
and an unspecified (empty) priority is created, and the created and stored
task has priority "medium". -/
theorem spec_c7 (store : TaskStore) (task : Task) (now : Nat) :
    (task.Title = "" →
      createTaskHandler store task now =
        (.badRequest "Title is required", store)) ∧
    (task.Title ≠ "" → task.Priority = "" →
      ∃ created,
        (createTaskHandler store task now).1 = .created created ∧
        created.Priority = "medium" ∧
        mapLookup (createTaskHandler store task now).2.tasks created.ID =
          some created) := by
  constructor
  · intro h
    simp [createTaskHandler, h]
  · intro h hp
    refine ⟨(store.Create { task with Priority := "medium" } now).1, ?_, rfl, ?_⟩
    · simp [createTaskHandler, h, hp]
    · simp only [createTaskHandler, h, hp, if_false, if_true, if_neg h,
        if_pos hp]
      exact Create_stores store { task with Priority := "medium" } now

/-- C7 witness: an empty-title request is rejected; a request titled "t"
with empty priority is stored with priority "medium". -/
theorem spec_c7_witness :
    (createTaskHandler NewTaskStore Task.zero 0 =
      (.badRequest "Title is required", NewTaskStore)) ∧
    (∃ created,
      (createTaskHandler NewTaskStore { Task.zero with Title := "t" } 0).1 =
        .created created ∧
      created.Priority = "medium" ∧
      mapLookup
          (createTaskHandler NewTaskStore
            { Task.zero with Title := "t" } 0).2.tasks created.ID =
        some created) :=
  ⟨(spec_c7 NewTaskStore Task.zero 0).1 rfl,
   (spec_c7 NewTaskStore { Task.zero with Title := "t" } 0).2
     (by decide) rfl⟩

/-! ### The user service of the integration-testing lesson (C4) -/

/-- The `User` record of the user CRUD example. -/
structure User where
  ID : Nat
  Name : String
  Email : String
deriving DecidableEq, Repr

/-- `UserService`: identifier-keyed user map plus next-identifier counter. -/
structure UserService where
  users : List (Nat × User)
  nextID : Nat
deriving DecidableEq, Repr

/-- `NewUserService`: empty map, counter starts at 1. -/
def NewUserService : UserService := { users := [], nextID := 1 }

/-- `func (s *UserService) CreateUser(name, email string) User`: build the
user with the next identifier, store it, bump the counter, return it. There
is no uniqueness check of any kind. -/
def UserService.CreateUser (s : UserService) (name email : String) :
    User × UserService :=
  let user : User := { ID := s.nextID, Name := name, Email := email }
  (user, { users := mapInsert s.users s.nextID user, nextID := s.nextID + 1 })

/-- Outcome of the user-creation handler, at the granularity the claim
needs. -/
inductive UserResponse where
  | badRequest (msg : String)
  | created (user : User)
deriving DecidableEq, Repr

/-- `func (h *Handler) CreateUserHandler(w, r)`, modelled on the decoded
request body (the method check and the invalid-JSON branch both reject
before the decoded fields this function receives and touch nothing):
an empty name or email is rejected, otherwise `CreateUser` runs. -/
def CreateUserHandler (s : UserService) (name email : String) :
    UserResponse × UserService :=
  if name = "" ∨ email = "" then
    (.badRequest "Name and email are required", s)
  else
    let r := s.CreateUser name email
    (.created r.1, r.2)

/-- C4 counterexample: the service layer of the cited code performs no
email-uniqueness check — two `CreateUser` calls with the identical email
"a@example.com" both succeed (identifiers 1 and 2) and the store then holds
two entries with that email. -/
theorem spec_c4_counterexample :
    ((NewUserService.CreateUser "Alice" "a@example.com").1.ID = 1 ∧
      (NewUserService.CreateUser "Alice" "a@example.com").1.Email =
        "a@example.com") ∧
    (((NewUserService.CreateUser "Alice" "a@example.com").2.CreateUser
        "Bob" "a@example.com").1.ID = 2 ∧
      ((NewUserService.CreateUser "Alice" "a@example.com").2.CreateUser
        "Bob" "a@example.com").1.Email = "a@example.com") ∧
    ((((NewUserService.CreateUser "Alice" "a@example.com").2.CreateUser
          "Bob" "a@example.com").2.users.filter
        (fun p => p.2.Email == "a@example.com")).length = 2) := by
  decide

/-- C4 (amended): the service layer performs no uniqueness check on the
email field — `CreateUser` always succeeds, appending a user with the fresh
identifier and the given name and email, so a second call with an
already-stored email adds a second entry with that email (the count of
entries carrying the email always grows by one); only empty name or email
is rejected, by the handler, with a validation error and no store change. -/
theorem spec_c4_amended (s : UserService) (name email : String)
    (h : ∀ p ∈ s.users, p.1 < s.nextID) :
    ((s.CreateUser name email).1 =
        { ID := s.nextID, Name := name, Email := email } ∧
      (s.CreateUser name email).2.users =
        s.users ++ [(s.nextID, (s.CreateUser name email).1)]) ∧
    (((s.CreateUser name email).2.users.filter
        (fun p => p.2.Email == email)).length =
      (s.users.filter (fun p => p.2.Email == email)).length + 1) ∧
    (name = "" ∨ email = "" →
      CreateUserHandler s name email =
        (.badRequest "Name and email are required", s)) ∧
    (name ≠ "" → email ≠ "" →
      CreateUserHandler s name email =
        (.created (s.CreateUser name email).1,
          (s.CreateUser name email).2)) := by
  have hfresh : ∀ p ∈ s.users, p.1 ≠ s.nextID :=
    fun p hp => Nat.ne_of_lt (h p hp)
  have happ : (s.CreateUser name email).2.users =
      s.users ++ [(s.nextID, (s.CreateUser name email).1)] :=
    mapInsert_fresh s.users s.nextID _ hfresh
  refine ⟨⟨rfl, happ⟩, ?_, ?_, ?_⟩
  · rw [happ, List.filter_append, List.length_append]
    simp [UserService.CreateUser]
  · intro hcase
    simp [CreateUserHandler, hcase]
  · intro hn he
    simp [CreateUserHandler, hn, he]

/-- C4 witness: from the fresh service, creating "Alice" appends her entry,
and the handler rejects an empty name. -/
theorem spec_c4_witness :
    ((NewUserService.CreateUser "Alice" "a@example.com").2.users =
      [(1, { ID := 1, Name := "Alice", Email := "a@example.com" })]) ∧
    (CreateUserHandler NewUserService "" "b@example.com" =
      (.badRequest "Name and email are required", NewUserService)) :=
  ⟨((spec_c4_amended NewUserService "Alice" "a@example.com"
      (by simp [NewUserService])).1).2,
   (spec_c4_amended NewUserService "" "b@example.com"
      (by simp [NewUserService])).2.2.1 (Or.inl rfl)⟩

end Lessons
